import Mathlib

/-!
Shallow embedding of `bin/add_revision.py` (acl-anthology maintenance script).

The script registers a revision or erratum for a paper: it resolves an input
file (local path or URL), validates its detected content type, computes the
next sequence number from the revision/erratum children of the paper node in
the collection XML file, optionally bootstraps an explicit version-1 node on
the first revision, appends the new entry node, writes the XML back, and
copies the input file to a versioned path (and, for revisions, over the
canonical un-versioned path).

Machine-level effects (filesystem, network, XML file) are modelled as explicit
state: `World` carries an association-list filesystem, the set of existing
directories, the on-disk paper node of the collection XML, and a counter of
XML writes.  Fatal `sys.exit(1)` paths, unhandled Python exceptions and the
normal return are distinguished by `RunResult`.
-/

/- ### String helpers (kernel-friendly re-implementations of the Python
string operations used by the script; everything goes through `List Char`). -/

/-- Last-characters test; models Python `str.endswith`. -/
def strEndsWith (s suf : String) : Bool :=
  let a := s.toList.reverse
  let b := suf.toList.reverse
  b == a.take b.length

/-- First-4-characters test; models the `args.path.startswith("http")` check. -/
def startsWithHttp (s : String) : Bool :=
  s.toList.take 4 == "http".toList

/-- First character as a one-character string; models Python `s[0]`
(on the empty string Python raises; the script never reaches that case,
and here the empty string maps to the empty string). -/
def strHead (s : String) : String :=
  (s.toList.take 1).asString

/-- Digit-string parsing; models Python `int(s)` on the attribute values the
script reads (`none` when `int` would raise `ValueError`). -/
def strToNat? (s : String) : Option Nat :=
  let cs := s.toList
  if cs ≠ [] ∧ cs.all Char.isDigit then
    some (cs.foldl (fun n c => n * 10 + (c.toNat - 48)) 0)
  else
    none

/-- Models `os.path.join` for the plain relative components used here. -/
def pathJoin (a b : String) : String := a ++ "/" ++ b

/- ### Data model: files, XML elements, the paper node. -/

/-- What `filetype.guess` reports for a file: a MIME type and the extension
belonging to the detected type. -/
structure FileType where
  mime : String
  extension : String
deriving DecidableEq, Repr

/-- A file on disk: its bytes, the content type `filetype.guess` detects for
those bytes (`none` when the library cannot recognize them), and the
permission mode bits. -/
structure FileContent where
  bytes : String
  detected : Option FileType
  mode : Nat
deriving DecidableEq, Repr

/-- An XML element as the script builds and reads them: tag, ordered
attribute list, optional text. -/
structure Elem where
  tag : String
  attrib : List (String × String)
  text : Option String
deriving DecidableEq, Repr

/-- The paper node located at
`./volume[@id=volume_id]/paper[@id=paper_id]` in `<collection_id>.xml`:
its optional `<url>` child and its `<revision>`/`<erratum>` children in
document order. -/
structure Paper where
  url : Option Elem
  children : List Elem
deriving DecidableEq, Repr

/-- The parsed command line of the script (argparse namespace). -/
structure Args where
  anthology_id : String
  path : String
  explanation : String
  erratum : Bool
  date : String
  dry_run : Bool
  anthology_dir : String
deriving DecidableEq, Repr

/-- The outside world one run touches: the filesystem (association list from
path to content), the set of existing directories, the paper node as stored
in the on-disk collection XML (`none` when the XPath lookup finds nothing),
and a counter of `tree.write` calls. -/
structure World where
  fs : List (String × FileContent)
  dirs : List String
  paper? : Option Paper
  xmlWrites : Nat
deriving DecidableEq, Repr

/-- How a run of `main` ends: normal return, `sys.exit(1)`, an unhandled
`NameError`/`UnboundLocalError`, or another unhandled Python exception. -/
inductive RunResult
  | ok
  | fatal
  | nameError
  | pyError
deriving DecidableEq, Repr

/-- Result of a run: exit status, final world, diagnostics printed. -/
structure Outcome where
  result : RunResult
  world : World
  log : List String
deriving DecidableEq, Repr

/- ### Filesystem and attribute-list primitives. -/

/-- Read a file (Python `open(path)` / `filetype.guess(path)` source). -/
def fsRead : List (String × FileContent) → String → Option FileContent
  | [], _ => none
  | e :: t, p => if e.1 == p then some e.2 else fsRead t p

/-- Create or overwrite a file: replace the entry for the path when one
exists, append a new entry otherwise. -/
def fsWrite : List (String × FileContent) → String → FileContent →
    List (String × FileContent)
  | [], p, c => [(p, c)]
  | e :: t, p, c => if e.1 == p then (p, c) :: t else e :: fsWrite t p c

/-- Delete a file (Python `os.remove`). -/
def fsRemove : List (String × FileContent) → String → List (String × FileContent)
  | [], _ => []
  | e :: t, p => if e.1 == p then fsRemove t p else e :: fsRemove t p

/-- Attribute lookup on an element (Python `elem.attrib[key]`, as an
`Option` so a missing key can surface as an exception at the call site). -/
def attrValue (l : List (String × String)) (k : String) : Option String :=
  (l.find? (fun p => p.1 == k)).map (fun p => p.2)

/-- Attribute assignment `elem.attrib[key] = value`: replace in place when
the key exists, append otherwise. -/
def setAttr (l : List (String × String)) (k v : String) : List (String × String) :=
  if l.any (fun p => p.1 == k) then
    l.map (fun p => if p.1 == k then (k, v) else p)
  else
    l ++ [(k, v)]

/-- Network as data: `some` content when the URL can be fetched, `none` for
the SSL failure path that `download_file` turns into a fatal exit. -/
def netGet (net : List (String × FileContent)) (url : String) : Option FileContent :=
  (net.find? (fun e => e.1 == url)).map (fun e => e.2)

/- ### Externals from `anthology.utils` (that module is not part of this
source tree; the definitions below are modelled from the specification). -/

/-- Modelled from the spec: `compute_hash` from `anthology.utils` returns a
short checksum of the given bytes.  Only equality and propagation of hash
values matter to the claims, so the model tags the content injectively. -/
def compute_hash (bytes : String) : String := "h(" ++ bytes ++ ")"

/-- Modelled from the spec: `is_newstyle_id` from `anthology.utils`
classifies identifiers; new-style ids have the dotted year.venue form
(such as 2020.acl-1.1) and so start with a digit, old-style ids (such as
P18-1001) start with a single letter. -/
def is_newstyle_id (anthology_id : String) : Bool :=
  match anthology_id.toList with
  | [] => false
  | c :: _ => c.isDigit

/-- Modelled from the spec: `deconstruct_anthology_id` from `anthology.utils`
splits an identifier into (collection_id, volume_id, paper_id); the
collection id is everything before the first dash. -/
def deconstruct_anthology_id (anthology_id : String) : String × String × String :=
  let cs := anthology_id.toList
  let collection := (cs.takeWhile (fun c => c ≠ '-')).asString
  let rest := (cs.dropWhile (fun c => c ≠ '-')).drop 1
  if is_newstyle_id anthology_id then
    (collection, (rest.takeWhile (fun c => c ≠ '.')).asString,
      ((rest.dropWhile (fun c => c ≠ '.')).drop 1).asString)
  else
    (collection, (rest.take 1).asString, (rest.drop 1).asString)

/-- Modelled from the spec: `infer_url` from `anthology.utils` resolves a
paper record to its canonical URL, keeping absolute URLs and resolving bare
ids against the anthology file server. -/
def infer_url (u : String) : String :=
  if startsWithHttp u then u else "https://www.aclweb.org/anthology/" ++ u

/-- Modelled from the spec: `make_simple_element` from `anthology.utils`
builds an element with the given tag, text and attributes; appending to the
parent is done explicitly at the call sites of this model. -/
def make_simple_element (tag : String) (text : Option String)
    (attrib : List (String × String)) : Elem :=
  { tag := tag
    attrib := attrib
    text := text }

/- ### Embedding of `bin/add_revision.py` itself. -/

/-- Lines 62-65 of `add_revision.py`: the test inside `validate_file_type`.
Validation passes when `filetype.guess` detected a type and the detected
MIME type string ends with the detected type extension; on `false` the
script prints a FATAL diagnostic naming the anthology id and the MIME type
and exits with status 1.  Note that the test never consults the extension of
the file path itself. -/
def file_type_ok (detected : Option FileType) : Bool :=
  match detected with
  | none => false
  | some t => strEndsWith t.mime t.extension

/-- The diagnostic of `validate_file_type` (lines 66-70): names the paper id
and the detected MIME type, with UNKNOWN for an undetectable file. -/
def validate_fail_msg (anthology_id path : String) (detected : Option FileType) : String :=
  "FATAL: " ++ anthology_id ++ " file " ++ path ++ " has MIME type " ++
    (match detected with | none => "UNKNOWN" | some t => t.mime)

/-- Line 128 of `add_revision.py`: `collection_id.split(".")[1]`, the second
dot-segment of a new-style collection id. -/
def venue_of (collection_id : String) : String :=
  ((((collection_id.toList).dropWhile (fun c => c ≠ '.')).drop 1).takeWhile
    (fun c => c ≠ '.')).asString

/-- Lines 127-133 of `add_revision.py`: choice of the storage directory.
New-style ids go to `<anthology_dir>/pdf/<venue>`, old-style ids to
`<anthology_dir>/pdf/<first letter of collection>/<collection>`. -/
def output_dir_of (anthology_dir anthology_id : String) : String :=
  let collection_id := (deconstruct_anthology_id anthology_id).1
  if is_newstyle_id anthology_id then
    pathJoin (pathJoin anthology_dir "pdf") (venue_of collection_id)
  else
    pathJoin (pathJoin (pathJoin anthology_dir "pdf") (strHead collection_id))
      collection_id

/-- Lines 149-152 of `add_revision.py`: the sequence-number computation.
`revno` starts at 1 for errata and 2 for revisions and is overwritten by
`int(child.attrib["id"]) + 1` for each matching child in document order, so
it ends as last id + 1; `int` is applied to every child, so any missing or
non-numeric id raises (modelled as `none`). -/
def compute_revno (erratum : Bool) (revisions : List Elem) : Option Nat :=
  match revisions.mapM (fun r => (attrValue r.attrib "id").bind strToNat?) with
  | none => none
  | some ids => some ((ids.getLast?).elim (if erratum then 1 else 2) (fun i => i + 1))

/-- The fixed scratch path standing for the `tempfile.mkstemp()` result
(line 109).  It does not end in `.pdf`, so it never collides with the
archive paths the script writes, all of which end in `.pdf`. -/
def tempPath : String := "/tmp/add-revision-scratch"

/-- Lines 189-199 of `add_revision.py`: the entry node appended for the new
revision or erratum.  The `date` attribute is passed for both kinds. -/
def new_entry (args : Args) (change_type change_letter checksum : String)
    (revno : Nat) : Elem :=
  make_simple_element change_type (some args.explanation)
    [("id", Nat.repr revno),
     ("href", args.anthology_id ++ change_letter ++ Nat.repr revno),
     ("hash", checksum),
     ("date", args.date)]

/-- Lines 178-187 of `add_revision.py`: the bootstrap node for the original
file, added on a first revision: id 1, no text, hash of the downloaded
original. -/
def bootstrap_entry (args : Args) (change_type change_letter old_checksum : String) :
    Elem :=
  make_simple_element change_type none
    [("id", "1"),
     ("href", args.anthology_id ++ change_letter ++ "1"),
     ("hash", old_checksum)]

/-- Result of the commit-mode XML block (lines 154-205): exit status, the
in-memory paper node after the mutations, the filesystem (the bootstrap
downloads a file into the archive), and diagnostics. -/
structure XmlStepOut where
  result : RunResult
  paper : Paper
  fs : List (String × FileContent)
  log : List String
deriving DecidableEq, Repr

/-- Lines 154-205 of `add_revision.py`, the body guarded by
`if not args.dry_run:` once the paper node was found and `revno` computed.
It updates the hash attribute on the `<url>` child (for both kinds), runs
the first-revision bootstrap when the operation is a revision and
`revno == 2` (downloading the original into the archive, validating it,
and appending an id-1 node), appends the new entry node, and writes the
tree back (`result = .ok` stands for reaching the `tree.write` call).
When the paper has no `<url>` child, the bootstrap dereferences the never
assigned local `current_version_url`, an unhandled `UnboundLocalError`
(a `NameError`). -/
def xml_commit_step (args : Args) (net : List (String × FileContent))
    (output_dir checksum : String) (fs : List (String × FileContent))
    (paper : Paper) (revno : Nat) : XmlStepOut :=
  let change_type := if args.erratum then "erratum" else "revision"
  let change_letter := if args.erratum then "e" else "v"
  -- Lines 155-158: update the hash attribute on the url child.
  let paper1 : Paper :=
    match paper.url with
    | none => paper
    | some u => { paper with url := some { u with attrib := setAttr u.attrib "hash" checksum } }
  if !args.erratum && revno == 2 then
    -- Lines 160-187: first-revision bootstrap.
    let current_version_url : Option String :=
      paper.url.map (fun u => infer_url (u.text.getD "") ++ ".pdf")
    let revised_file_v1_path :=
      pathJoin output_dir (args.anthology_id ++ change_letter ++ "1.pdf")
    match current_version_url with
    | none =>
        { result := .nameError, paper := paper1, fs := fs, log := [] }
    | some cvu =>
        match netGet net cvu with
        | none =>
            { result := .fatal
              paper := paper1
              fs := fs
              log := ["-> FATAL: An SSL error was encountered in downloading " ++ cvu] }
        | some c =>
            let fs1 := fsWrite fs revised_file_v1_path { c with mode := 420 }
            if !file_type_ok c.detected then
              { result := .fatal
                paper := paper1
                fs := fs1
                log := [validate_fail_msg args.anthology_id revised_file_v1_path c.detected] }
            else
              let old_checksum := compute_hash c.bytes
              let paper2 := { paper1 with children :=
                paper1.children ++ [bootstrap_entry args change_type change_letter old_checksum] }
              let paper3 := { paper2 with children :=
                paper2.children ++ [new_entry args change_type change_letter checksum revno] }
              { result := .ok
                paper := paper3
                fs := fs1
                log := ["-> Added " ++ change_type ++ " node to XML"] }
  else
    let paper3 := { paper1 with children :=
      paper1.children ++ [new_entry args change_type change_letter checksum revno] }
    { result := .ok
      paper := paper3
      fs := fs
      log := ["-> Added " ++ change_type ++ " node to XML"] }

/-- Lines 91-100 of `add_revision.py`: `maybe_copy`.  In dry-run mode it
only logs; otherwise it copies the source file to the destination and sets
mode 0644 (420) on the destination.  `none` in the first component models
the `FileNotFoundError` Python would raise on a missing source. -/
def maybe_copy (dry_run : Bool) (fs : List (String × FileContent))
    (file_from file_to : String) :
    Option (List (String × FileContent)) × String :=
  if dry_run then
    (some fs, "-> DRY RUN: Copying from " ++ file_from ++ " -> " ++ file_to)
  else
    match fsRead fs file_from with
    | some c => (some (fsWrite fs file_to { c with mode := 420 }),
                 "-> Copying from " ++ file_from ++ " -> " ++ file_to)
    | none => (none, "-> Copying from " ++ file_from ++ " -> " ++ file_to)

/-- Lines 214-226 of `add_revision.py`: copy the input to the versioned
path, copy it over the canonical path unless the operation is an erratum,
and remove the temporary download file when the source was a URL (the
removal happens in dry-run mode as well). -/
def finishCopies (args : Args) (w : World) (log : List String)
    (input_file_path output_dir change_letter : String) (revno : Nat) : Outcome :=
  let revised_file_versioned_path :=
    pathJoin output_dir (args.anthology_id ++ change_letter ++ Nat.repr revno ++ ".pdf")
  let canonical_path := pathJoin output_dir (args.anthology_id ++ ".pdf")
  let c1 := maybe_copy args.dry_run w.fs input_file_path revised_file_versioned_path
  match c1.1 with
  | none => { result := .pyError, world := w, log := log ++ [c1.2] }
  | some fs1 =>
    if args.erratum then
      let fs3 := if startsWithHttp args.path then fsRemove fs1 tempPath else fs1
      { result := .ok, world := { w with fs := fs3 }, log := log ++ [c1.2] }
    else
      let c2 := maybe_copy args.dry_run fs1 input_file_path canonical_path
      match c2.1 with
      | none =>
        { result := .pyError, world := { w with fs := fs1 }, log := log ++ [c1.2, c2.2] }
      | some fs2 =>
        let fs3 := if startsWithHttp args.path then fsRemove fs2 tempPath else fs2
        { result := .ok, world := { w with fs := fs3 }, log := log ++ [c1.2, c2.2] }

/-- Lines 154-226 of `add_revision.py` for a commit-mode run once the paper
node was found and `revno` computed: run the XML mutation block; when it
reaches the `tree.write` call, record the written paper node and perform the
final copies, otherwise stop with the exit status of the XML block (the
copies are never reached because the block exits the process). -/
def commitAndCopy (args : Args) (net : List (String × FileContent)) (w1 : World)
    (log1 : List String) (input_file_path checksum output_dir change_letter : String)
    (paper : Paper) (revno : Nat) : Outcome :=
  let s := xml_commit_step args net output_dir checksum w1.fs paper revno
  match s.result with
  | .ok =>
    let w2 := { w1 with
      fs := s.fs
      paper? := some s.paper
      xmlWrites := w1.xmlWrites + 1 }
    finishCopies args w2 (log1 ++ s.log) input_file_path output_dir
      change_letter revno
  | r => { result := r, world := { w1 with fs := s.fs }, log := log1 ++ s.log }

/-- Lines 114-226 of `add_revision.py`: everything after the input file has
been resolved to a local path.  Validates the content type, computes the
checksum and output directory, creates the output directory when missing
(this happens in dry-run mode too), looks up the paper node, computes
`revno`, runs the commit-mode XML block unless in dry-run mode, and
performs the final copies and scratch-file cleanup.  (The source also
computes an unused `paper_extension` from the path; it has no effect.) -/
def afterInput (args : Args) (net : List (String × FileContent)) (w : World)
    (log : List String) (input_file_path : String) : Outcome :=
  let change_type := if args.erratum then "erratum" else "revision"
  let change_letter := if args.erratum then "e" else "v"
  match fsRead w.fs input_file_path with
  | none => { result := .pyError, world := w, log := log }
  | some fc =>
    if !file_type_ok fc.detected then
      { result := .fatal
        world := w
        log := log ++ [validate_fail_msg args.anthology_id input_file_path fc.detected] }
    else
      let checksum := compute_hash fc.bytes
      let output_dir := output_dir_of args.anthology_dir args.anthology_id
      let w1 :=
        if w.dirs.contains output_dir then w
        else { w with dirs := output_dir :: w.dirs }
      let log1 :=
        if w.dirs.contains output_dir then log
        else log ++ ["-> Creating directory " ++ output_dir]
      match w1.paper? with
      | none =>
        { result := .fatal
          world := w1
          log := log1 ++ ["-> FATAL: paper ID " ++ args.anthology_id ++
                          " not found in the Anthology"] }
      | some paper =>
        let revisions := paper.children.filter (fun c => c.tag == change_type)
        match compute_revno args.erratum revisions with
        | none => { result := .pyError, world := w1, log := log1 }
        | some revno =>
          if args.dry_run then
            finishCopies args w1 log1 input_file_path output_dir change_letter revno
          else
            commitAndCopy args net w1 log1 input_file_path checksum output_dir
              change_letter paper revno

/-- Lines 90-226 of `add_revision.py`: the whole of `main`.  A URL source is
downloaded to the scratch path first (an unreachable URL is the fatal SSL
path); a local source is used in place. -/
def run (args : Args) (net : List (String × FileContent)) (w : World) : Outcome :=
  let change_type := if args.erratum then "erratum" else "revision"
  let log0 := ["Processing " ++ change_type ++ " to " ++ args.anthology_id ++ "..."]
  if startsWithHttp args.path then
    match netGet net args.path with
    | none =>
      { result := .fatal
        world := w
        log := log0 ++ ["-> FATAL: An SSL error was encountered in downloading " ++
                        args.path] }
    | some c =>
      afterInput args net { w with fs := fsWrite w.fs tempPath { c with mode := 420 } }
        (log0 ++ ["-> Downloading file from " ++ args.path ++ " to " ++ tempPath])
        tempPath
  else
    afterInput args net w log0 args.path

/-- Lines 229-261 of `add_revision.py`: the argparse defaults.  `erratum`
defaults to false, `date` to the current day, `anthology_dir` to
`$HOME/anthology-files`, and `dry_run` defaults to FALSE; the parser defines
no `--do` flag at all, so an invocation without optional flags runs in
commit mode. -/
def defaultArgs (anthology_id path explanation today home : String) : Args :=
  { anthology_id := anthology_id
    path := path
    explanation := explanation
    erratum := false
    date := today
    dry_run := false
    anthology_dir := pathJoin home "anthology-files" }

/-- The content of the resolved input file of a run: for a URL source, the
downloaded body as `download_file` stores it in the scratch file; for a
local source, the file at the given path. -/
def input_content (args : Args) (net : List (String × FileContent)) (w : World) :
    Option FileContent :=
  if startsWithHttp args.path then
    (netGet net args.path).map (fun c => { c with mode := 420 })
  else
    fsRead w.fs args.path


/- ### Concrete fixtures used by witnesses and counterexamples. -/

/-- A well-formed PDF as `filetype.guess` sees it. -/
def pdfType : FileType := { mime := "application/pdf", extension := "pdf" }

/-- A PNG as `filetype.guess` sees it. -/
def pngType : FileType := { mime := "image/png", extension := "png" }

/-- The revised paper handed to the script. -/
def newPdf : FileContent := { bytes := "NEW", detected := some pdfType, mode := 420 }

/-- The original paper as served by the anthology site. -/
def origPdf : FileContent := { bytes := "ORIG", detected := some pdfType, mode := 420 }

/-- A PNG whose file name claims it is a PDF. -/
def pngFile : FileContent := { bytes := "PNG", detected := some pngType, mode := 420 }

/-- An existing revision child node with the given id attribute. -/
def revChild (i : String) : Elem := { tag := "revision", attrib := [("id", i)], text := none }

/-- A url child node with an existing hash attribute. -/
def urlChild : Elem := { tag := "url", attrib := [("hash", "oldh")], text := some "P18-1001" }

/-- Base world: input file present, output directory present, paper found
with one prior revision node of id 2. -/
def fxW : World :=
  { fs := [("new.pdf", newPdf)]
    dirs := ["HOME/anthology-files/pdf/P/P18"]
    paper? := some { url := none, children := [revChild "2"] }
    xmlWrites := 0 }

/-- The claimed max-plus-one rule over the existing sequence ids. -/
def maxId (ids : List Nat) : Nat := ids.foldr max 0

/-- World for the dry-run counterexample: the output directory is missing. -/
def fxWnoDir : World :=
  { fs := [("new.pdf", newPdf)]
    dirs := []
    paper? := some { url := none, children := [revChild "2"] }
    xmlWrites := 0 }

/-- A dry-run invocation. -/
def fxDryArgs : Args :=
  { defaultArgs "P18-1001" "new.pdf" "fix" "2020-01-01" "HOME" with dry_run := true }

/-- World whose paper has revision children with ids 3 then 2 in document
order (so that last id and max id differ). -/
def fxW32 : World :=
  { fs := [("new.pdf", newPdf)]
    dirs := ["HOME/anthology-files/pdf/P/P18"]
    paper? := some { url := none, children := [revChild "3", revChild "2"] }
    xmlWrites := 0 }

/-- Network serving the original paper file at its canonical URL. -/
def fxNet : List (String × FileContent) :=
  [("https://www.aclweb.org/anthology/P18-1001.pdf", origPdf)]

/-- World whose paper already has one revision node, with id 1, and a url
child, so that the next revision gets revno 2 although prior revision nodes
exist. -/
def fxWprior1 : World :=
  { fs := [("new.pdf", newPdf)]
    dirs := ["HOME/anthology-files/pdf/P/P18"]
    paper? := some { url := some urlChild, children := [revChild "1"] }
    xmlWrites := 0 }

/-- An erratum invocation in commit mode. -/
def fxErrArgs : Args :=
  { defaultArgs "P18-1001" "new.pdf" "fix" "2020-01-01" "HOME" with erratum := true }

/-- World whose paper has a url child with hash oldh and no prior
revision or erratum children. -/
def fxWurl : World :=
  { fs := [("new.pdf", newPdf)]
    dirs := ["HOME/anthology-files/pdf/P/P18"]
    paper? := some { url := some urlChild, children := [] }
    xmlWrites := 0 }

/-- A dry-run invocation whose input path claims to be a PDF. -/
def fxPngArgs : Args :=
  { defaultArgs "P18-1001" "paper.pdf" "fix" "2020-01-01" "HOME" with dry_run := true }

/-- World holding the mismatched input: the file named paper.pdf contains a
PNG image. -/
def fxWpng : World :=
  { fs := [("paper.pdf", pngFile)]
    dirs := ["HOME/anthology-files/pdf/P/P18"]
    paper? := some { url := none, children := [revChild "2"] }
    xmlWrites := 0 }

/-- World whose paper has neither a url child nor any revision children, the
configuration that sends a first revision into the unassigned-local crash. -/
def fxWnoUrl : World :=
  { fs := [("new.pdf", newPdf)]
    dirs := ["HOME/anthology-files/pdf/P/P18"]
    paper? := some { url := none, children := [] }
    xmlWrites := 0 }

/-- The claimed contiguity property of a sequence-id list: each element is
the predecessor plus one. -/
def contiguousAsc : List Nat → Bool
  | [] => true
  | [_] => true
  | a :: b :: t => (b == a + 1) && contiguousAsc (b :: t)

/- ### Helper lemmas. -/

/-- Writing a path and reading it back yields the written content. -/
theorem fsRead_fsWrite_self (fs : List (String × FileContent)) (p : String)
    (c : FileContent) : fsRead (fsWrite fs p c) p = some c := by
  induction fs with
  | nil => simp [fsWrite, fsRead]
  | cons e t ih =>
    by_cases h : e.1 = p
    · simp [fsWrite, fsRead, h]
    · simp [fsWrite, fsRead, h, ih]

/-- Writing one path does not change reads of another. -/
theorem fsRead_fsWrite_ne (fs : List (String × FileContent)) (p q : String)
    (c : FileContent) (h : q ≠ p) : fsRead (fsWrite fs q c) p = fsRead fs p := by
  induction fs with
  | nil => simp [fsWrite, fsRead, h]
  | cons e t ih =>
    by_cases he : e.1 = q
    · simp [fsWrite, fsRead, he, h]
    · simp only [fsWrite, fsRead, beq_iff_eq, he, if_false]
      by_cases hp : e.1 = p <;> simp [fsRead, hp, ih]

/-- Removing one path does not change reads of another. -/
theorem fsRead_fsRemove_ne (fs : List (String × FileContent)) (p q : String)
    (h : q ≠ p) : fsRead (fsRemove fs q) p = fsRead fs p := by
  induction fs with
  | nil => simp [fsRemove, fsRead]
  | cons e t ih =>
    by_cases he : e.1 = q
    · simp [fsRemove, fsRead, he, h, Ne.symm h, ih]
    · by_cases hp : e.1 = p <;> simp [fsRemove, fsRead, he, hp, ih, Ne.symm h]

/-- Removing a path right after writing it leaves the rest as a plain
removal of that path. -/
theorem fsRemove_fsWrite_self (fs : List (String × FileContent)) (p : String)
    (c : FileContent) : fsRemove (fsWrite fs p c) p = fsRemove fs p := by
  induction fs with
  | nil => simp [fsWrite, fsRemove]
  | cons e t ih =>
    by_cases h : e.1 = p
    · simp [fsWrite, fsRemove, h]
    · simp [fsWrite, fsRemove, h, ih]

/-- Removal of a path is idempotent. -/
theorem fsRemove_fsRemove (fs : List (String × FileContent)) (p : String) :
    fsRemove (fsRemove fs p) p = fsRemove fs p := by
  induction fs with
  | nil => simp [fsRemove]
  | cons e t ih =>
    by_cases h : e.1 = p
    · simp [fsRemove, h, ih]
    · simp [fsRemove, h, ih]


/-- C5 (amended): the hash attribute on the papers primary url node is set
to the new content checksum by the commit-mode XML block for revision AND
erratum operations alike (whenever a url child exists; absent one, nothing
is updated): the block leaves the url child equal to the original with its
hash attribute set to the checksum, on every exit path. -/
theorem C5_hash_update_for_both_kinds (args : Args) (net : List (String × FileContent))
    (output_dir checksum : String) (fs : List (String × FileContent))
    (paper : Paper) (revno : Nat) :
    (xml_commit_step args net output_dir checksum fs paper revno).paper.url =
      paper.url.map (fun u => { u with attrib := setAttr u.attrib "hash" checksum }) := by
  unfold xml_commit_step
  cases hu : paper.url with
  | none =>
    simp only [hu, Option.map_none']
    split
    · exact hu
    · rfl
  | some u =>
    simp only [hu, Option.map_some']
    split
    · split
      · rfl
      · split <;> rfl
    · rfl

/-- For an erratum the commit-mode XML block never enters the bootstrap, so
it leaves the filesystem untouched and always reaches the write. -/
theorem xml_step_erratum_keeps_fs (args : Args) (net : List (String × FileContent))
    (od cs : String) (fs : List (String × FileContent)) (paper : Paper) (revno : Nat)
    (herr : args.erratum = true) :
    (xml_commit_step args net od cs fs paper revno).fs = fs ∧
    (xml_commit_step args net od cs fs paper revno).result = RunResult.ok := by
  unfold xml_commit_step
  simp only [herr, Bool.not_true, Bool.false_and, Bool.false_eq_true, if_false]
  cases paper.url <;> simp

/-- For a revision that reaches the write, the only filesystem effect of the
XML block is the possible download of the version-1 bootstrap file. -/
theorem xml_step_rev_fs (args : Args) (net : List (String × FileContent))
    (od cs : String) (fs : List (String × FileContent)) (paper : Paper) (revno : Nat)
    (herr : args.erratum = false)
    (hok : (xml_commit_step args net od cs fs paper revno).result = RunResult.ok) :
    (xml_commit_step args net od cs fs paper revno).fs = fs ∨
    (∃ c, (xml_commit_step args net od cs fs paper revno).fs =
      fsWrite fs (pathJoin od (args.anthology_id ++ "v" ++ "1.pdf")) c) := by
  unfold xml_commit_step at hok ⊢
  by_cases hcond : (!args.erratum && revno == 2) = true
  · simp only [hcond, if_true] at hok ⊢
    cases hu : paper.url with
    | none => simp [hu] at hok
    | some u =>
      simp only [hu, Option.map_some'] at hok ⊢
      cases hn : netGet net (infer_url (u.text.getD "") ++ ".pdf") with
      | none => simp [hn] at hok
      | some c =>
        simp only [hn] at hok ⊢
        by_cases hft : file_type_ok c.detected
        · refine Or.inr ⟨{ c with mode := 420 }, ?_⟩
          simp [hft, herr]
        · simp [hft] at hok
  · simp only [hcond, Bool.false_eq_true, if_false] at hok ⊢
    cases hu : paper.url <;> simp [hu]

/-- On a paper with no url child, the bootstrap of the commit-mode XML block
hits the unassigned local for the current version URL. -/
theorem xml_step_no_url (args : Args) (net : List (String × FileContent))
    (od cs : String) (fs : List (String × FileContent)) (paper : Paper)
    (herr : args.erratum = false) (hurl : paper.url = none) :
    (xml_commit_step args net od cs fs paper 2).result = RunResult.nameError := by
  unfold xml_commit_step
  simp only [herr, Bool.not_false, Nat.reduceBEq, Bool.true_and, beq_self_eq_true,
    if_true, hurl, Option.map_none']

/-- Every archive path the script writes ends in .pdf while the scratch path
does not, so they never collide. -/
theorem ends_pdf_ne_tempPath (x : String) : x ++ ".pdf" ≠ tempPath := by
  intro h
  have hd : (x ++ ".pdf").data.getLast? = tempPath.data.getLast? := by rw [h]
  rw [show (x ++ ".pdf").data = x.data ++ ".pdf".data from rfl] at hd
  rw [List.getLast?_append_of_ne_nil x.data (by decide)] at hd
  exact absurd hd (by decide)

/-- The joined form of the collision fact above. -/
theorem pathJoin_pdf_ne_tempPath (od x : String) : pathJoin od (x ++ ".pdf") ≠ tempPath := by
  unfold pathJoin
  rw [← String.append_assoc]
  exact ends_pdf_ne_tempPath _

/-- Two joins under the same directory with components of different lengths
differ. -/
theorem pathJoin_ne_of_length (od a b : String) (h : a.length ≠ b.length) :
    pathJoin od a ≠ pathJoin od b := by
  intro he
  apply h
  have hl : (pathJoin od a).length = (pathJoin od b).length := by rw [he]
  simp only [pathJoin, String.length_append] at hl
  omega

/-- A versioned file path is strictly longer than the canonical path of the
same paper, hence distinct from it. -/
theorem versioned_ne_canonical (od x cl r : String) (hcl : cl.length = 1) :
    pathJoin od (x ++ cl ++ r ++ ".pdf") ≠ pathJoin od (x ++ ".pdf") := by
  apply pathJoin_ne_of_length
  simp only [String.length_append, hcl]
  omega


/-- maxId unfolds on cons to a binary max. -/
theorem maxId_cons (a : Nat) (l : List Nat) : maxId (a :: l) = max a (maxId l) := rfl

/-- The head bounds maxId from below. -/
theorem le_maxId_head (b : Nat) (l : List Nat) : b ≤ maxId (b :: l) :=
  le_max_left b (maxId l)

/-- On a contiguous ascending list the last element is the maximum. -/
theorem contiguous_getLast_eq_max (l : List Nat) (hc : contiguousAsc l = true)
    (hne : l ≠ []) : l.getLast? = some (maxId l) := by
  induction l with
  | nil => exact absurd rfl hne
  | cons a t ih =>
    cases t with
    | nil => simp [maxId]
    | cons b t2 =>
      rw [contiguousAsc] at hc
      obtain ⟨hb, hrest⟩ := (Bool.and_eq_true _ _).mp hc
      have hb' : b = a + 1 := by simpa using hb
      have hlast := ih hrest (by simp)
      rw [List.getLast?_cons_cons, hlast]
      have h1 : b ≤ maxId (b :: t2) := le_maxId_head b t2
      have h2 : a ≤ maxId (b :: t2) := le_trans (by omega) h1
      rw [maxId_cons a (b :: t2), Nat.max_eq_right h2]

/-- Appending the successor of the last element preserves contiguity. -/
theorem contiguousAsc_append_last (l : List Nat) (n : Nat)
    (hc : contiguousAsc l = true) (hl : l.getLast? = some n) :
    contiguousAsc (l ++ [n + 1]) = true := by
  induction l with
  | nil => simp at hl
  | cons a t ih =>
    cases t with
    | nil =>
      simp at hl
      subst hl
      simp [contiguousAsc]
    | cons b t2 =>
      rw [contiguousAsc] at hc
      obtain ⟨hb, hrest⟩ := (Bool.and_eq_true _ _).mp hc
      rw [List.getLast?_cons_cons] at hl
      have htail := ih hrest hl
      show contiguousAsc (a :: b :: (t2 ++ [n + 1])) = true
      rw [contiguousAsc]
      exact (Bool.and_eq_true _ _).mpr ⟨hb, htail⟩

/-- In dry-run mode the final copy stage changes nothing but (for URL
sources) the removal of the scratch file. -/
theorem finishCopies_dry (args : Args) (w : World) (log : List String)
    (ifp od cl : String) (revno : Nat) (hdry : args.dry_run = true) :
    (finishCopies args w log ifp od cl revno).world.fs =
        (if startsWithHttp args.path then fsRemove w.fs tempPath else w.fs) ∧
    (finishCopies args w log ifp od cl revno).world.dirs = w.dirs ∧
    (finishCopies args w log ifp od cl revno).world.paper? = w.paper? ∧
    (finishCopies args w log ifp od cl revno).world.xmlWrites = w.xmlWrites ∧
    (finishCopies args w log ifp od cl revno).result = RunResult.ok := by
  unfold finishCopies maybe_copy
  by_cases herr : args.erratum = true <;> simp [hdry, herr]

/-- In commit mode the final copy stage writes the versioned file, then (for
revisions) the canonical file, both with the current content of the input
path and mode 0644, and removes the scratch file for URL sources. -/
theorem finishCopies_commit (args : Args) (w : World) (log : List String)
    (ifp od cl : String) (revno : Nat) (fc : FileContent)
    (hdry : args.dry_run = false)
    (hfc : fsRead w.fs ifp = some fc) :
    (finishCopies args w log ifp od cl revno).result = RunResult.ok ∧
    (finishCopies args w log ifp od cl revno).world.dirs = w.dirs ∧
    (finishCopies args w log ifp od cl revno).world.paper? = w.paper? ∧
    (finishCopies args w log ifp od cl revno).world.xmlWrites = w.xmlWrites ∧
    (args.erratum = true →
      (finishCopies args w log ifp od cl revno).world.fs =
        (if startsWithHttp args.path then
          fsRemove (fsWrite w.fs
            (pathJoin od (args.anthology_id ++ cl ++ Nat.repr revno ++ ".pdf"))
            { fc with mode := 420 }) tempPath
         else fsWrite w.fs
            (pathJoin od (args.anthology_id ++ cl ++ Nat.repr revno ++ ".pdf"))
            { fc with mode := 420 })) ∧
    (args.erratum = false →
      (finishCopies args w log ifp od cl revno).world.fs =
        (if startsWithHttp args.path then
          fsRemove (fsWrite
            (fsWrite w.fs
              (pathJoin od (args.anthology_id ++ cl ++ Nat.repr revno ++ ".pdf"))
              { fc with mode := 420 })
            (pathJoin od (args.anthology_id ++ ".pdf")) { fc with mode := 420 }) tempPath
         else fsWrite
            (fsWrite w.fs
              (pathJoin od (args.anthology_id ++ cl ++ Nat.repr revno ++ ".pdf"))
              { fc with mode := 420 })
            (pathJoin od (args.anthology_id ++ ".pdf")) { fc with mode := 420 })) := by
  unfold finishCopies maybe_copy
  simp only [hdry, Bool.false_eq_true, if_false, hfc]
  by_cases herr : args.erratum = true
  · simp [herr]
  · have herr2 : args.erratum = false := by
      cases h : args.erratum
      · rfl
      · exact absurd h herr
    by_cases hiv : ifp = pathJoin od (args.anthology_id ++ cl ++ Nat.repr revno ++ ".pdf")
    · rw [hiv]
      simp [herr2, fsRead_fsWrite_self]
    · rw [fsRead_fsWrite_ne w.fs ifp
        (pathJoin od (args.anthology_id ++ cl ++ Nat.repr revno ++ ".pdf"))
        { fc with mode := 420 } (Ne.symm hiv), hfc]
      simp [herr2]


/-- Frame facts about the commit-mode tail: the canonical file is untouched
for errata, the versioned file holds the input content afterwards, and for a
revision that completes, the canonical file holds the input content. -/
theorem commitAndCopy_frame (args : Args) (net : List (String × FileContent))
    (w1 : World) (log1 : List String) (ifp cs od cl : String)
    (paper : Paper) (revno : Nat) (fc : FileContent)
    (hdry : args.dry_run = false)
    (hcl : cl.length = 1)
    (hfc : fsRead w1.fs ifp = some fc)
    (hnev1 : ifp ≠ pathJoin od (args.anthology_id ++ "v" ++ "1.pdf")) :
    (args.erratum = true →
      fsRead (commitAndCopy args net w1 log1 ifp cs od cl paper revno).world.fs
        (pathJoin od (args.anthology_id ++ ".pdf")) =
      fsRead w1.fs (pathJoin od (args.anthology_id ++ ".pdf"))) ∧
    (args.erratum = true →
      fsRead (commitAndCopy args net w1 log1 ifp cs od cl paper revno).world.fs
        (pathJoin od (args.anthology_id ++ cl ++ Nat.repr revno ++ ".pdf")) =
      some { fc with mode := 420 }) ∧
    (args.erratum = false →
      (commitAndCopy args net w1 log1 ifp cs od cl paper revno).result = RunResult.ok →
      fsRead (commitAndCopy args net w1 log1 ifp cs od cl paper revno).world.fs
        (pathJoin od (args.anthology_id ++ ".pdf")) =
      some { fc with mode := 420 }) := by
  by_cases herr : args.erratum = true
  · obtain ⟨hsfs, hsok⟩ := xml_step_erratum_keeps_fs args net od cs w1.fs paper revno herr
    unfold commitAndCopy
    simp only [hsok, hsfs]
    obtain ⟨hfr, hfd, hfp, hfx, hfse, hfsr⟩ := finishCopies_commit args
      { fs := w1.fs, dirs := w1.dirs,
        paper? := some (xml_commit_step args net od cs w1.fs paper revno).paper,
        xmlWrites := w1.xmlWrites + 1 }
      (log1 ++ (xml_commit_step args net od cs w1.fs paper revno).log)
      ifp od cl revno fc hdry hfc
    refine ⟨fun _ => ?_, fun _ => ?_, fun hf => absurd herr (by simp [hf])⟩
    · rw [hfse herr]
      by_cases hsw : startsWithHttp args.path <;>
        simp only [hsw, if_true, Bool.false_eq_true, if_false]
      · rw [fsRead_fsRemove_ne _ _ tempPath (Ne.symm (pathJoin_pdf_ne_tempPath _ _)),
          fsRead_fsWrite_ne _ _ _ _ (versioned_ne_canonical od args.anthology_id cl _ hcl)]
      · rw [fsRead_fsWrite_ne _ _ _ _ (versioned_ne_canonical od args.anthology_id cl _ hcl)]
    · rw [hfse herr]
      by_cases hsw : startsWithHttp args.path <;>
        simp only [hsw, if_true, Bool.false_eq_true, if_false]
      · rw [fsRead_fsRemove_ne _ _ tempPath (Ne.symm (pathJoin_pdf_ne_tempPath _ _))]
        exact fsRead_fsWrite_self _ _ _
      · exact fsRead_fsWrite_self _ _ _
  · have herr2 : args.erratum = false := by
      cases h : args.erratum
      · rfl
      · exact absurd h herr
    refine ⟨fun hf => absurd hf herr, fun hf => absurd hf herr, fun _ houtok => ?_⟩
    unfold commitAndCopy at houtok ⊢
    cases hsr : (xml_commit_step args net od cs w1.fs paper revno).result with
    | ok =>
      simp only [hsr]
      rcases xml_step_rev_fs args net od cs w1.fs paper revno herr2 hsr with hw | ⟨c, hw⟩
      · simp only [hw]
        obtain ⟨hfr, hfd, hfp, hfx, hfse, hfsr⟩ := finishCopies_commit args
          { fs := w1.fs, dirs := w1.dirs,
            paper? := some (xml_commit_step args net od cs w1.fs paper revno).paper,
            xmlWrites := w1.xmlWrites + 1 }
          (log1 ++ (xml_commit_step args net od cs w1.fs paper revno).log)
          ifp od cl revno fc hdry hfc
        rw [hfsr herr2]
        by_cases hsw : startsWithHttp args.path <;>
          simp only [hsw, if_true, Bool.false_eq_true, if_false]
        · rw [fsRead_fsRemove_ne _ _ tempPath (Ne.symm (pathJoin_pdf_ne_tempPath _ _))]
          exact fsRead_fsWrite_self _ _ _
        · exact fsRead_fsWrite_self _ _ _
      · simp only [hw]
        have hfc2 : fsRead (fsWrite w1.fs
            (pathJoin od (args.anthology_id ++ "v" ++ "1.pdf")) c) ifp = some fc := by
          rw [fsRead_fsWrite_ne _ _ _ _ (Ne.symm hnev1)]
          exact hfc
        obtain ⟨hfr, hfd, hfp, hfx, hfse, hfsr⟩ := finishCopies_commit args
          { fs := fsWrite w1.fs (pathJoin od (args.anthology_id ++ "v" ++ "1.pdf")) c,
            dirs := w1.dirs,
            paper? := some (xml_commit_step args net od cs w1.fs paper revno).paper,
            xmlWrites := w1.xmlWrites + 1 }
          (log1 ++ (xml_commit_step args net od cs w1.fs paper revno).log)
          ifp od cl revno fc hdry hfc2
        rw [hfsr herr2]
        by_cases hsw : startsWithHttp args.path <;>
          simp only [hsw, if_true, Bool.false_eq_true, if_false]
        · rw [fsRead_fsRemove_ne _ _ tempPath (Ne.symm (pathJoin_pdf_ne_tempPath _ _))]
          exact fsRead_fsWrite_self _ _ _
        · exact fsRead_fsWrite_self _ _ _
    | fatal => simp [hsr] at houtok
    | nameError => simp [hsr] at houtok
    | pyError => simp [hsr] at houtok


/-- In dry-run mode the stage after input resolution changes, at most, the
scratch file and the creation of the missing output directory; the paper
record and the XML write counter are untouched. -/
theorem afterInput_dry (args : Args) (net : List (String × FileContent))
    (w : World) (log : List String) (ifp : String) (hdry : args.dry_run = true) :
    fsRemove (afterInput args net w log ifp).world.fs tempPath = fsRemove w.fs tempPath ∧
    (afterInput args net w log ifp).world.paper? = w.paper? ∧
    (afterInput args net w log ifp).world.xmlWrites = w.xmlWrites ∧
    ((afterInput args net w log ifp).world.dirs = w.dirs ∨
      (afterInput args net w log ifp).world.dirs =
        output_dir_of args.anthology_dir args.anthology_id :: w.dirs) := by
  unfold afterInput
  cases hf : fsRead w.fs ifp with
  | none => simp
  | some fc =>
    by_cases hft : file_type_ok fc.detected
    case neg => simp [hft]
    case pos =>
      simp only [hft, Bool.not_true, Bool.false_eq_true, if_false]
      by_cases hc : w.dirs.contains (output_dir_of args.anthology_dir args.anthology_id)
      case pos =>
        simp only [hc, if_true]
        split
        · simp
        · simp only [hdry, if_true]
          split
          · simp
          · rename_i revno heq
            obtain ⟨h1, h2, h3, h4, h5⟩ := finishCopies_dry args w log ifp
              (output_dir_of args.anthology_dir args.anthology_id)
              (if args.erratum = true then "e" else "v") revno hdry
            refine ⟨?_, h3, h4, Or.inl h2⟩
            rw [h1]
            by_cases hsw : startsWithHttp args.path <;> simp [hsw, fsRemove_fsRemove]
      case neg =>
        simp only [hc, Bool.false_eq_true, if_false]
        split
        · simp
        · simp only [hdry, if_true]
          split
          · simp
          · rename_i revno heq
            obtain ⟨h1, h2, h3, h4, h5⟩ := finishCopies_dry args
              { w with dirs := output_dir_of args.anthology_dir args.anthology_id :: w.dirs }
              (log ++ ["-> Creating directory " ++
                output_dir_of args.anthology_dir args.anthology_id]) ifp
              (output_dir_of args.anthology_dir args.anthology_id)
              (if args.erratum = true then "e" else "v") revno hdry
            refine ⟨?_, h3, h4, Or.inr h2⟩
            rw [h1]
            by_cases hsw : startsWithHttp args.path <;> simp [hsw, fsRemove_fsRemove]

/- ### Claim theorems. -/

/-- C1: the argparse setup defines no commit flag at all and `--dry-run`
defaults to false, so an invocation without optional flags runs in commit
mode; the default-args run below copies the input over the canonical path
and writes the XML, contradicting the documented default-is-dry-run policy
(the docstring of the script says a dry run happens by default and tells the
operator to add `--do`, a flag the parser never defines). -/
theorem C1_default_is_commit_mode :
    (defaultArgs "P18-1001" "new.pdf" "fix" "2020-01-01" "HOME").dry_run = false ∧
    (run (defaultArgs "P18-1001" "new.pdf" "fix" "2020-01-01" "HOME") [] fxW).world.xmlWrites = 1 ∧
    fsRead (run (defaultArgs "P18-1001" "new.pdf" "fix" "2020-01-01" "HOME") [] fxW).world.fs
      "HOME/anthology-files/pdf/P/P18/P18-1001.pdf" = some newPdf ∧
    fsRead fxW.fs "HOME/anthology-files/pdf/P/P18/P18-1001.pdf" = none :=
  ⟨rfl, rfl, rfl, rfl⟩

/-- C2 counterexample: `os.makedirs` runs before the dry-run guard, so a
dry run still creates the missing output directory on disk; the invocation
below changes the set of directories, refuting the claim that nothing on
disk is created in dry-run mode. -/
theorem C2_counterexample :
    fxDryArgs.dry_run = true ∧
    (run fxDryArgs [] fxWnoDir).world.dirs = ["HOME/anthology-files/pdf/P/P18"] ∧
    fxWnoDir.dirs = [] ∧
    (run fxDryArgs [] fxWnoDir).world.dirs ≠ fxWnoDir.dirs :=
  ⟨rfl, rfl, rfl, by decide⟩

/-- C3 counterexample: with existing revision ids 3 then 2 in document
order, the run appends an entry with id 3 (last id plus one), not
max id plus one, which would be 4. -/
theorem C3_counterexample :
    ((run (defaultArgs "P18-1001" "new.pdf" "fix" "2020-01-01" "HOME") [] fxW32).world.paper?.bind
        (fun p => p.children.getLast?)).bind (fun e => attrValue e.attrib "id") = some "3" ∧
    maxId [3, 2] + 1 = 4 ∧
    (some "3" : Option String) ≠ some (Nat.repr (maxId [3, 2] + 1)) :=
  ⟨rfl, rfl, by decide⟩

/-- C4 counterexample: the bootstrap is guarded only by revno == 2, so it
also runs when a prior revision node with id 1 already exists: the run below
starts from one revision child and ends with three (the old id-1 node, a
freshly materialized id-1 bootstrap node, and the new id-2 entry), refuting
the claim that the bootstrap happens only when no prior revision nodes
exist. -/
theorem C4_counterexample :
    (fxWprior1.paper?.map (fun p => p.children.filter (fun c => c.tag == "revision"))) =
      some [revChild "1"] ∧
    ([revChild "1"] : List Elem) ≠ [] ∧
    ((run (defaultArgs "P18-1001" "new.pdf" "fix" "2020-01-01" "HOME") fxNet fxWprior1).world.paper?.map
        (fun p => p.children.map (fun e => attrValue e.attrib "id"))) =
      some [some "1", some "1", some "2"] :=
  ⟨rfl, by decide, rfl⟩

/-- C5 counterexample: the url hash update (lines 155-158) is not guarded by
the erratum flag, so an erratum run in commit mode also rewrites the hash
attribute of the url node, refuting the claim that errata leave it
unchanged. -/
theorem C5_counterexample :
    ((run fxErrArgs [] fxWurl).world.paper?.bind (fun p => p.url)).bind
        (fun u => attrValue u.attrib "hash") = some (compute_hash "NEW") ∧
    (fxWurl.paper?.bind (fun p => p.url)).bind (fun u => attrValue u.attrib "hash") =
      some "oldh" ∧
    compute_hash "NEW" ≠ "oldh" :=
  ⟨rfl, rfl, by decide⟩

/-- C7 counterexample: the attrib dict passed to make_simple_element (lines
189-199) contains the date key for both kinds, so the node appended for an
erratum also carries a date attribute, refuting the claim that only
revisions get one. -/
theorem C7_counterexample :
    ((run fxErrArgs [] fxWurl).world.paper?.bind (fun p => p.children.getLast?)) =
      some { tag := "erratum"
             attrib := [("id", "1"), ("href", "P18-1001e1"),
                        ("hash", compute_hash "NEW"), ("date", "2020-01-01")]
             text := some "fix" } ∧
    attrValue [("id", "1"), ("href", "P18-1001e1"), ("hash", compute_hash "NEW"),
               ("date", "2020-01-01")] "date" = some "2020-01-01" :=
  ⟨rfl, rfl⟩

/-- C9: the mismatch test of validate_file_type compares the detected MIME
type only against the extension belonging to the detected type itself, never
against the extension of the file path, so a PNG named paper.pdf passes
validation (image/png ends with png) and the run continues to a normal exit
although the detected type contradicts the pdf extension of the path. -/
theorem C9_png_named_pdf_accepted :
    file_type_ok (some { mime := "image/png", extension := "png" }) = true ∧
    strEndsWith "image/png" "pdf" = false ∧
    (run fxPngArgs [] fxWpng).result = RunResult.ok :=
  ⟨rfl, rfl, rfl⟩

/- ### C2 (amended), C3 (amended), C4 (amended) -/

/-- C2 (amended): for every dry-run invocation, the filesystem is unchanged
apart from the scratch download file, the stored paper record and the XML
write counter are unchanged, and the only possible on-disk change is the
creation of the missing output directory. -/
theorem C2_dry_run_frame (args : Args) (net : List (String × FileContent)) (w : World)
    (hdry : args.dry_run = true) :
    fsRemove (run args net w).world.fs tempPath = fsRemove w.fs tempPath ∧
    (run args net w).world.paper? = w.paper? ∧
    (run args net w).world.xmlWrites = w.xmlWrites ∧
    ((run args net w).world.dirs = w.dirs ∨
      (run args net w).world.dirs =
        output_dir_of args.anthology_dir args.anthology_id :: w.dirs) := by
  unfold run
  by_cases hsw : startsWithHttp args.path
  case neg =>
    simp only [hsw, Bool.false_eq_true, if_false]
    exact afterInput_dry args net w _ args.path hdry
  case pos =>
    simp only [hsw, if_true]
    cases hn : netGet net args.path with
    | none => simp
    | some c =>
      obtain ⟨h1, h2, h3, h4⟩ := afterInput_dry args net
        { w with fs := fsWrite w.fs tempPath { c with mode := 420 } } _ tempPath hdry
      refine ⟨?_, h2, h3, h4⟩
      rw [h1]
      exact fsRemove_fsWrite_self w.fs tempPath _

/-- C2 witness: the dry-run frame applied at the concrete run of the
counterexample world. -/
theorem C2_dry_run_frame_witness :
    fxDryArgs.dry_run = true ∧
    (fsRemove (run fxDryArgs [] fxWnoDir).world.fs tempPath =
        fsRemove fxWnoDir.fs tempPath ∧
      (run fxDryArgs [] fxWnoDir).world.paper? = fxWnoDir.paper? ∧
      (run fxDryArgs [] fxWnoDir).world.xmlWrites = fxWnoDir.xmlWrites ∧
      ((run fxDryArgs [] fxWnoDir).world.dirs = fxWnoDir.dirs ∨
        (run fxDryArgs [] fxWnoDir).world.dirs =
          output_dir_of fxDryArgs.anthology_dir fxDryArgs.anthology_id :: fxWnoDir.dirs)) :=
  ⟨rfl, C2_dry_run_frame fxDryArgs [] fxWnoDir rfl⟩

/-- C3 (amended): for EVERY children list whose ids parse, the new sequence
number defaults to 2 for revisions and 1 for errata when no matching child
exists, and otherwise is the id of the LAST existing child of the matching
kind plus one, contiguous or not; only when the existing ids happen to form
a contiguous ascending run does this coincide with max + 1, and then the
extended id sequence is again a contiguous ascending run. -/
theorem C3_last_plus_one (erratum : Bool) (rs : List Elem) (ids : List Nat)
    (hids : rs.mapM (fun r => (attrValue r.attrib "id").bind strToNat?) = some ids) :
    (ids = [] → compute_revno erratum rs = some (if erratum then 1 else 2)) ∧
    (∀ (t : List Nat) (i : Nat), ids = t ++ [i] →
      compute_revno erratum rs = some (i + 1)) ∧
    (contiguousAsc ids = true → ids ≠ [] →
      compute_revno erratum rs = some (maxId ids + 1) ∧
      contiguousAsc (ids ++ [maxId ids + 1]) = true) := by
  have h1 : compute_revno erratum rs =
      some ((ids.getLast?).elim (if erratum then 1 else 2) (fun i => i + 1)) := by
    unfold compute_revno
    rw [hids]
  refine ⟨fun hnil => ?_, fun t i hti => ?_, fun hcontig hne => ?_⟩
  · rw [h1, hnil]; rfl
  · rw [h1, hti, List.getLast?_concat]; rfl
  · have hlast := contiguous_getLast_eq_max ids hcontig hne
    constructor
    · rw [h1, hlast]; rfl
    · exact contiguousAsc_append_last ids (maxId ids) hcontig hlast

/-- C3 witness: the amended rule evaluated on a paper with revision children
3 then 2 in document order, a NON-contiguous configuration where the
last-plus-one rule and the max-plus-one rule disagree. -/
theorem C3_last_plus_one_witness :
    ([revChild "3", revChild "2"].mapM
        (fun r => (attrValue r.attrib "id").bind strToNat?) = some [3, 2]) ∧
    (([3, 2] : List Nat) = [3] ++ [2]) ∧
    (compute_revno false [revChild "3", revChild "2"] = some (2 + 1)) ∧
    (([3, 2] = ([] : List Nat) →
        compute_revno false [revChild "3", revChild "2"] = some (if false then 1 else 2)) ∧
      (∀ (t : List Nat) (i : Nat), [3, 2] = t ++ [i] →
        compute_revno false [revChild "3", revChild "2"] = some (i + 1)) ∧
      (contiguousAsc [3, 2] = true → [3, 2] ≠ ([] : List Nat) →
        compute_revno false [revChild "3", revChild "2"] = some (maxId [3, 2] + 1) ∧
        contiguousAsc ([3, 2] ++ [maxId [3, 2] + 1]) = true)) :=
  ⟨by decide, by decide,
    (C3_last_plus_one false [revChild "3", revChild "2"] [3, 2] (by decide)).2.1
      [3] 2 rfl,
    C3_last_plus_one false [revChild "3", revChild "2"] [3, 2] (by decide)⟩

/-- C4 (amended): when the commit-mode XML block reaches the write, the
first-revision bootstrap has materialized an explicit id-1 revision node
(hash taken from the downloaded original, no text) exactly when the
operation is a revision and revno = 2 (which the code uses as its proxy for
the first revision); for errata and for any other revno the block appends
only the single new entry node. -/
theorem C4_bootstrap_on_revno_two (args : Args) (net : List (String × FileContent))
    (output_dir checksum : String) (fs : List (String × FileContent))
    (paper : Paper) (revno : Nat)
    (hok : (xml_commit_step args net output_dir checksum fs paper revno).result =
      RunResult.ok) :
    ((args.erratum = false ∧ revno = 2) →
      ∃ bh, (xml_commit_step args net output_dir checksum fs paper revno).paper.children =
        paper.children ++
          [bootstrap_entry args "revision" "v" bh,
           new_entry args "revision" "v" checksum revno]) ∧
    ((args.erratum = true ∨ revno ≠ 2) →
      (xml_commit_step args net output_dir checksum fs paper revno).paper.children =
        paper.children ++
          [new_entry args (if args.erratum then "erratum" else "revision")
            (if args.erratum then "e" else "v") checksum revno]) := by
  by_cases herr : args.erratum = true
  · constructor
    · rintro ⟨hf, -⟩
      rw [herr] at hf
      cases hf
    · intro _
      unfold xml_commit_step
      simp only [herr, Bool.not_true, Bool.false_and, Bool.false_eq_true, if_false]
      cases hu : paper.url <;> simp [hu]
  · have herr2 : args.erratum = false := by
      cases h : args.erratum
      · rfl
      · exact absurd h herr
    by_cases hrev : revno = 2
    · constructor
      · intro _
        unfold xml_commit_step at hok ⊢
        simp only [herr2, hrev, Bool.not_false, Bool.true_and, beq_self_eq_true,
          if_true] at hok ⊢
        cases hu : paper.url with
        | none => simp [hu] at hok
        | some u =>
          simp only [hu, Option.map_some'] at hok ⊢
          cases hn : netGet net (infer_url (u.text.getD "") ++ ".pdf") with
          | none => simp [hn] at hok
          | some c =>
            simp only [hn] at hok ⊢
            by_cases hft : file_type_ok c.detected
            · refine ⟨compute_hash c.bytes, ?_⟩
              simp [hft, herr2, List.append_assoc]
            · simp [hft] at hok
      · rintro (h | h)
        · exact absurd h herr
        · exact absurd hrev h
    · constructor
      · rintro ⟨-, h2⟩
        exact absurd h2 hrev
      · intro _
        unfold xml_commit_step
        have hb : (revno == 2) = false := by simp [hrev]
        simp only [herr2, Bool.not_false, Bool.true_and, hb, Bool.false_eq_true, if_false]
        cases hu : paper.url <;> simp [hu]

/-- C4 witness: the characterization applied to a concrete erratum step,
which appends only the single entry node. -/
theorem C4_bootstrap_on_revno_two_witness :
    (xml_commit_step fxErrArgs [] "d" "c" [] ⟨none, []⟩ 1).result = RunResult.ok ∧
    (((fxErrArgs.erratum = false ∧ 1 = 2) →
        ∃ bh, (xml_commit_step fxErrArgs [] "d" "c" [] ⟨none, []⟩ 1).paper.children =
          ([] : List Elem) ++
            [bootstrap_entry fxErrArgs "revision" "v" bh,
             new_entry fxErrArgs "revision" "v" "c" 1]) ∧
      ((fxErrArgs.erratum = true ∨ 1 ≠ 2) →
        (xml_commit_step fxErrArgs [] "d" "c" [] ⟨none, []⟩ 1).paper.children =
          ([] : List Elem) ++
            [new_entry fxErrArgs (if fxErrArgs.erratum then "erratum" else "revision")
              (if fxErrArgs.erratum then "e" else "v") "c" 1])) :=
  ⟨rfl, C4_bootstrap_on_revno_two fxErrArgs [] "d" "c" [] ⟨none, []⟩ 1 rfl⟩

/- ### C7 (amended), C10 -/

/-- C7 (amended): whenever the commit-mode XML block reaches the write, the
appended entry node carries exactly the attributes id, href, hash AND date
(the date attribute is passed for errata as well as revisions), with the
explanation as its text. -/
theorem C7_entry_node_shape (args : Args) (net : List (String × FileContent))
    (output_dir checksum : String) (fs : List (String × FileContent))
    (paper : Paper) (revno : Nat)
    (hok : (xml_commit_step args net output_dir checksum fs paper revno).result =
      RunResult.ok) :
    (xml_commit_step args net output_dir checksum fs paper revno).paper.children.getLast? =
      some { tag := if args.erratum then "erratum" else "revision"
             attrib := [("id", Nat.repr revno),
                        ("href", args.anthology_id ++ (if args.erratum then "e" else "v") ++
                          Nat.repr revno),
                        ("hash", checksum), ("date", args.date)]
             text := some args.explanation } := by
  unfold xml_commit_step at hok ⊢
  by_cases hcond : (!args.erratum && revno == 2) = true
  · simp only [hcond, if_true] at hok ⊢
    cases hu : paper.url with
    | none => simp [hu] at hok
    | some u =>
      simp only [hu, Option.map_some'] at hok ⊢
      cases hn : netGet net (infer_url (u.text.getD "") ++ ".pdf") with
      | none => simp [hn] at hok
      | some c =>
        simp only [hn] at hok ⊢
        by_cases hft : file_type_ok c.detected
        · simp [hft, new_entry, make_simple_element, List.getLast?_concat]
        · simp [hft] at hok
  · simp only [hcond, Bool.false_eq_true, if_false] at hok ⊢
    cases hu : paper.url <;>
      simp [hu, new_entry, make_simple_element, List.getLast?_concat]

/-- C7 witness: the node shape applied to a concrete erratum step; the
resulting node carries the date attribute. -/
theorem C7_entry_node_shape_witness :
    (xml_commit_step fxErrArgs [] "d" "c" [] ⟨none, []⟩ 1).result = RunResult.ok ∧
    (xml_commit_step fxErrArgs [] "d" "c" [] ⟨none, []⟩ 1).paper.children.getLast? =
      some { tag := if fxErrArgs.erratum then "erratum" else "revision"
             attrib := [("id", Nat.repr 1),
                        ("href", fxErrArgs.anthology_id ++
                          (if fxErrArgs.erratum then "e" else "v") ++ Nat.repr 1),
                        ("hash", "c"), ("date", fxErrArgs.date)]
             text := some fxErrArgs.explanation } :=
  ⟨rfl, C7_entry_node_shape fxErrArgs [] "d" "c" [] ⟨none, []⟩ 1 rfl⟩

/-- C10: in commit mode, the first revision of a paper whose node has no url
child ends in an unhandled NameError (UnboundLocalError) from the
never-assigned current version URL local, not in a clean fatal exit. -/
theorem C10_first_revision_without_url (args : Args) (net : List (String × FileContent))
    (w : World) (p : Paper) (fc : FileContent)
    (herr : args.erratum = false) (hdry : args.dry_run = false)
    (hlocal : startsWithHttp args.path = false)
    (hfile : fsRead w.fs args.path = some fc)
    (htype : file_type_ok fc.detected = true)
    (hpaper : w.paper? = some p)
    (hurl : p.url = none)
    (hnorev : p.children.filter (fun c => c.tag == "revision") = []) :
    (run args net w).result = RunResult.nameError ∧
    (run args net w).result ≠ RunResult.fatal := by
  have hmain : (run args net w).result = RunResult.nameError := by
    unfold run
    simp only [hlocal, Bool.false_eq_true, if_false]
    unfold afterInput
    rw [hfile]
    simp only [htype, Bool.not_true, Bool.false_eq_true, if_false, herr]
    have hrev : compute_revno false [] = some 2 := rfl
    by_cases hc : w.dirs.contains (output_dir_of args.anthology_dir args.anthology_id)
    · simp only [hc, if_true, hpaper, hnorev]
      rw [hrev]
      simp only [hdry, Bool.false_eq_true, if_false]
      simp only [commitAndCopy]
      rw [xml_step_no_url args net _ _ w.fs p herr hurl]
    · simp only [hc, Bool.false_eq_true, if_false, hpaper, hnorev]
      rw [hrev]
      simp only [hdry, Bool.false_eq_true, if_false]
      simp only [commitAndCopy]
      rw [xml_step_no_url args net _ _ w.fs p herr hurl]
  exact ⟨hmain, by rw [hmain]; decide⟩

/-- C10 witness: the crash observed on a concrete commit-mode first revision
of a paper without a url child. -/
theorem C10_first_revision_without_url_witness :
    (run (defaultArgs "P18-1001" "new.pdf" "fix" "2020-01-01" "HOME") [] fxWnoUrl).result =
      RunResult.nameError ∧
    (run (defaultArgs "P18-1001" "new.pdf" "fix" "2020-01-01" "HOME") [] fxWnoUrl).result ≠
      RunResult.fatal :=
  C10_first_revision_without_url (defaultArgs "P18-1001" "new.pdf" "fix" "2020-01-01" "HOME")
    [] fxWnoUrl ⟨none, []⟩ newPdf rfl rfl (by decide) rfl rfl rfl rfl rfl

/- ### C8 -/
theorem takeWhile_append_stop {α : Type} (p : α → Bool) (l r : List α) (x : α)
    (hl : ∀ a ∈ l, p a = true) (hx : p x = false) :
    (l ++ x :: r).takeWhile p = l := by
  induction l with
  | nil => simp [List.takeWhile_cons, hx]
  | cons a t ih =>
    have ha : p a = true := hl a (by simp)
    simp [List.takeWhile_cons, ha, ih (fun b hb => hl b (by simp [hb]))]

theorem dropWhile_append_stop {α : Type} (p : α → Bool) (l r : List α) (x : α)
    (hl : ∀ a ∈ l, p a = true) (hx : p x = false) :
    (l ++ x :: r).dropWhile p = x :: r := by
  induction l with
  | nil => simp [List.dropWhile_cons, hx]
  | cons a t ih =>
    have ha : p a = true := hl a (by simp)
    simp [List.dropWhile_cons, ha, ih (fun b hb => hl b (by simp [hb]))]

theorem takeWhile_all {α : Type} (p : α → Bool) (l : List α)
    (hl : ∀ a ∈ l, p a = true) : l.takeWhile p = l := by
  induction l with
  | nil => rfl
  | cons a t ih =>
    have ha : p a = true := hl a (by simp)
    simp [List.takeWhile_cons, ha, ih (fun b hb => hl b (by simp [hb]))]

/-- Old-style identifiers: the collection id is the dash-free part before
the dash, and the storage directory nests its first letter. -/
theorem asString_toList (s : String) : s.toList.asString = s := rfl

theorem toList_asString (l : List Char) : (l.asString).toList = l := rfl

theorem asString_append (l1 l2 : List Char) :
    (l1 ++ l2).asString = l1.asString ++ l2.asString := rfl

theorem oldstyle_storage_dir (d c rest : String) (ch : Char) (ct : List Char)
    (hc : c.toList = ch :: ct) (hch : ch.isDigit = false) (hdash : '-' ∉ c.toList) :
    (deconstruct_anthology_id (c ++ "-" ++ rest)).1 = c ∧
    output_dir_of d (c ++ "-" ++ rest) =
      pathJoin (pathJoin (pathJoin d "pdf") ([ch].asString)) c := by
  have hlist : (c ++ "-" ++ rest).toList = c.toList ++ '-' :: rest.toList := by
    rw [show (c ++ "-" ++ rest).toList = (c.toList ++ ['-']) ++ rest.toList from rfl]
    simp
  have hnew : is_newstyle_id (c ++ "-" ++ rest) = false := by
    unfold is_newstyle_id
    rw [hlist, hc]
    simp [hch, List.cons_append]
  have hdec : (deconstruct_anthology_id (c ++ "-" ++ rest)).1 = c := by
    simp only [deconstruct_anthology_id, hnew, Bool.false_eq_true, if_false]
    rw [hlist]
    rw [takeWhile_append_stop (fun a => decide (a ≠ '-')) c.toList rest.toList '-'
      (fun a ha => decide_eq_true (fun he : a = '-' => hdash (he ▸ ha))) (by decide)]
    exact asString_toList c
  refine ⟨hdec, ?_⟩
  simp only [output_dir_of, hnew, Bool.false_eq_true, if_false, hdec]
  rw [show strHead c = (c.toList.take 1).asString from rfl, hc]
  rfl

/-- New-style identifiers: the collection id is the dotted year.venue part
before the dash, and the storage directory is named by the venue. -/
theorem newstyle_storage_dir (d y v rest : String)
    (hy : y.toList ≠ []) (hdig : ∀ a ∈ y.toList, a.isDigit = true)
    (hdy : '-' ∉ y.toList) (hdv : '-' ∉ v.toList) (hpv : '.' ∉ v.toList) :
    (deconstruct_anthology_id (y ++ "." ++ v ++ "-" ++ rest)).1 = y ++ "." ++ v ∧
    output_dir_of d (y ++ "." ++ v ++ "-" ++ rest) = pathJoin (pathJoin d "pdf") v := by
  have hlist : (y ++ "." ++ v ++ "-" ++ rest).toList =
      (y.toList ++ '.' :: v.toList) ++ '-' :: rest.toList := by
    rw [show (y ++ "." ++ v ++ "-" ++ rest).toList =
      (((y.toList ++ ['.']) ++ v.toList) ++ ['-']) ++ rest.toList from rfl]
    simp
  obtain ⟨hy0, ty, hyc⟩ : ∃ hy0 ty, y.toList = hy0 :: ty := by
    cases hyl : y.toList with
    | nil => exact absurd hyl hy
    | cons a t => exact ⟨a, t, rfl⟩
  have hy0dig : hy0.isDigit = true := hdig hy0 (by rw [hyc]; simp)
  have hnew : is_newstyle_id (y ++ "." ++ v ++ "-" ++ rest) = true := by
    unfold is_newstyle_id
    rw [hlist, hyc]
    simp [List.cons_append, hy0dig]
  have hall : ∀ a ∈ y.toList ++ '.' :: v.toList,
      (fun a => decide (a ≠ '-')) a = true := by
    intro a ha
    apply decide_eq_true
    intro he
    subst he
    rcases List.mem_append.mp ha with h | h
    · exact hdy h
    · rcases List.mem_cons.mp h with h2 | h2
      · exact absurd h2 (by decide)
      · exact hdv h2
  have hdec1 : (deconstruct_anthology_id (y ++ "." ++ v ++ "-" ++ rest)).1 =
      y ++ "." ++ v := by
    simp only [deconstruct_anthology_id, hnew, if_true]
    rw [hlist]
    rw [takeWhile_append_stop (fun a => decide (a ≠ '-'))
      (y.toList ++ '.' :: v.toList) rest.toList '-' hall (by decide)]
    rw [asString_append, asString_toList,
      show ('.' :: v.toList).asString = "." ++ v from rfl, ← String.append_assoc]
  have hvenue : venue_of (y ++ "." ++ v) = v := by
    unfold venue_of
    have hl2 : (y ++ "." ++ v).toList = y.toList ++ '.' :: v.toList := by
      rw [show (y ++ "." ++ v).toList = (y.toList ++ ['.']) ++ v.toList from rfl]
      simp
    rw [hl2]
    rw [dropWhile_append_stop (fun a => decide (a ≠ '.')) y.toList v.toList '.'
      (fun a ha => decide_eq_true (fun he : a = '.' => by
        have hd := hdig a ha
        rw [he] at hd
        exact absurd hd (by decide))) (by decide)]
    rw [show ('.' :: v.toList).drop 1 = v.toList from rfl]
    rw [takeWhile_all (fun a => decide (a ≠ '.')) v.toList
      (fun a ha => decide_eq_true (fun he : a = '.' => hpv (he ▸ ha)))]
    exact asString_toList v
  refine ⟨hdec1, ?_⟩
  simp only [output_dir_of, hnew, if_true, hdec1, hvenue]

/-- C8: for every valid old-style identifier the storage directory is
pdf/(first letter)/(collection id) under the anthology root, and for every
new-style identifier it is pdf/(venue), the venue being the second
dot-segment of the collection id. -/
theorem C8_storage_dirs :
    (∀ (d c rest : String) (ch : Char) (ct : List Char),
      c.toList = ch :: ct → ch.isDigit = false → '-' ∉ c.toList →
      (deconstruct_anthology_id (c ++ "-" ++ rest)).1 = c ∧
      output_dir_of d (c ++ "-" ++ rest) =
        pathJoin (pathJoin (pathJoin d "pdf") ([ch].asString)) c) ∧
    (∀ (d y v rest : String),
      y.toList ≠ [] → (∀ a ∈ y.toList, a.isDigit = true) →
      '-' ∉ y.toList → '-' ∉ v.toList → '.' ∉ v.toList →
      (deconstruct_anthology_id (y ++ "." ++ v ++ "-" ++ rest)).1 = y ++ "." ++ v ∧
      output_dir_of d (y ++ "." ++ v ++ "-" ++ rest) = pathJoin (pathJoin d "pdf") v) :=
  ⟨fun d c rest ch ct h1 h2 h3 => oldstyle_storage_dir d c rest ch ct h1 h2 h3,
   fun d y v rest h1 h2 h3 h4 h5 => newstyle_storage_dir d y v rest h1 h2 h3 h4 h5⟩

/-- C8 witness: both identifier conventions evaluated at the spec examples
P18-1001 and 2020.acl-1.1. -/
theorem C8_storage_dirs_witness :
    (("P18" : String).toList = 'P' :: ['1', '8'] ∧ 'P'.isDigit = false ∧
      '-' ∉ ("P18" : String).toList ∧
      ((deconstruct_anthology_id ("P18" ++ "-" ++ "1001")).1 = "P18" ∧
        output_dir_of "A" ("P18" ++ "-" ++ "1001") =
          pathJoin (pathJoin (pathJoin "A" "pdf") (['P'].asString)) "P18")) ∧
    (("2020" : String).toList ≠ [] ∧ (∀ a ∈ ("2020" : String).toList, a.isDigit = true) ∧
      '-' ∉ ("2020" : String).toList ∧ '-' ∉ ("acl" : String).toList ∧
      '.' ∉ ("acl" : String).toList ∧
      ((deconstruct_anthology_id ("2020" ++ "." ++ "acl" ++ "-" ++ "1.1")).1 =
          "2020" ++ "." ++ "acl" ∧
        output_dir_of "A" ("2020" ++ "." ++ "acl" ++ "-" ++ "1.1") =
          pathJoin (pathJoin "A" "pdf") "acl")) :=
  ⟨⟨rfl, rfl, by decide,
      C8_storage_dirs.1 "A" "P18" "1001" 'P' ['1', '8'] rfl rfl (by decide)⟩,
   ⟨by decide, by decide, by decide, by decide, by decide,
      C8_storage_dirs.2 "A" "2020" "acl" "1.1" (by decide) (by decide) (by decide)
        (by decide) (by decide)⟩⟩

theorem xml_step_erratum_paper (args : Args) (net : List (String × FileContent))
    (od cs : String) (fs : List (String × FileContent)) (paper : Paper) (revno : Nat)
    (herr : args.erratum = true) :
    (xml_commit_step args net od cs fs paper revno).paper =
      { url := paper.url.map (fun u => { u with attrib := setAttr u.attrib "hash" cs })
        children := paper.children ++ [new_entry args "erratum" "e" cs revno] } := by
  unfold xml_commit_step
  simp only [herr, Bool.not_true, Bool.false_and, Bool.false_eq_true, if_false, if_true]
  cases hu : paper.url <;> simp [hu]

theorem commitAndCopy_erratum (args : Args) (net : List (String × FileContent))
    (w1 : World) (log1 : List String) (ifp cs od cl : String)
    (paper : Paper) (revno : Nat) (fc : FileContent)
    (hdry : args.dry_run = false)
    (herr : args.erratum = true)
    (hfc : fsRead w1.fs ifp = some fc) :
    (commitAndCopy args net w1 log1 ifp cs od cl paper revno).result = RunResult.ok ∧
    (∀ q, q ≠ pathJoin od (args.anthology_id ++ cl ++ Nat.repr revno ++ ".pdf") →
      q ≠ tempPath →
      fsRead (commitAndCopy args net w1 log1 ifp cs od cl paper revno).world.fs q =
        fsRead w1.fs q) ∧
    fsRead (commitAndCopy args net w1 log1 ifp cs od cl paper revno).world.fs
      (pathJoin od (args.anthology_id ++ cl ++ Nat.repr revno ++ ".pdf")) =
      some { fc with mode := 420 } ∧
    (commitAndCopy args net w1 log1 ifp cs od cl paper revno).world.paper? =
      some { url := paper.url.map (fun u => { u with attrib := setAttr u.attrib "hash" cs })
             children := paper.children ++ [new_entry args "erratum" "e" cs revno] } := by
  obtain ⟨hsfs, hsok⟩ := xml_step_erratum_keeps_fs args net od cs w1.fs paper revno herr
  unfold commitAndCopy
  simp only [hsok, hsfs]
  obtain ⟨hfr, hfd, hfp, hfx, hfse, hfsr⟩ := finishCopies_commit args
    { fs := w1.fs, dirs := w1.dirs,
      paper? := some (xml_commit_step args net od cs w1.fs paper revno).paper,
      xmlWrites := w1.xmlWrites + 1 }
    (log1 ++ (xml_commit_step args net od cs w1.fs paper revno).log)
    ifp od cl revno fc hdry hfc
  refine ⟨hfr, fun q hqv hqt => ?_, ?_, ?_⟩
  · rw [hfse herr]
    by_cases hsw : startsWithHttp args.path <;>
      simp only [hsw, if_true, Bool.false_eq_true, if_false]
    · rw [fsRead_fsRemove_ne _ _ tempPath (Ne.symm hqt),
        fsRead_fsWrite_ne _ _ _ _ (Ne.symm hqv)]
    · rw [fsRead_fsWrite_ne _ _ _ _ (Ne.symm hqv)]
  · rw [hfse herr]
    by_cases hsw : startsWithHttp args.path <;>
      simp only [hsw, if_true, Bool.false_eq_true, if_false]
    · rw [fsRead_fsRemove_ne _ _ tempPath (Ne.symm (pathJoin_pdf_ne_tempPath _ _))]
      exact fsRead_fsWrite_self _ _ _
    · exact fsRead_fsWrite_self _ _ _
  · rw [hfp]
    rw [xml_step_erratum_paper args net od cs w1.fs paper revno herr]

theorem afterInput_erratum (args : Args) (net : List (String × FileContent))
    (w : World) (log : List String) (ifp : String)
    (hdry : args.dry_run = false) (herr : args.erratum = true) :
    (∀ q, (∀ n : Nat, q ≠ pathJoin (output_dir_of args.anthology_dir args.anthology_id)
        (args.anthology_id ++ "e" ++ Nat.repr n ++ ".pdf")) → q ≠ tempPath →
      fsRead (afterInput args net w log ifp).world.fs q = fsRead w.fs q) ∧
    (∀ fc, fsRead w.fs ifp = some fc →
      ((afterInput args net w log ifp).result = RunResult.ok →
        ∃ n, fsRead (afterInput args net w log ifp).world.fs
          (pathJoin (output_dir_of args.anthology_dir args.anthology_id)
            (args.anthology_id ++ "e" ++ Nat.repr n ++ ".pdf")) =
          some { fc with mode := 420 }) ∧
      ((afterInput args net w log ifp).result = RunResult.ok →
        ∀ p, w.paper? = some p →
        ∃ n, (afterInput args net w log ifp).world.paper? = some
          { url := p.url.map (fun u =>
              { u with attrib := setAttr u.attrib "hash" (compute_hash fc.bytes) })
            children := p.children ++
              [new_entry args "erratum" "e" (compute_hash fc.bytes) n] })) := by
  unfold afterInput
  cases hf : fsRead w.fs ifp with
  | none =>
    refine ⟨fun q hqv hqt => rfl, fun fc hfc => ?_⟩
    cases hfc
  | some fc0 =>
    by_cases hft : file_type_ok fc0.detected
    case neg =>
      refine ⟨fun q hqv hqt => by simp [hft], fun fc hfc => by simp [hft]⟩
    case pos =>
      simp only [hft, Bool.not_true, Bool.false_eq_true, if_false]
      by_cases hc : w.dirs.contains (output_dir_of args.anthology_dir args.anthology_id)
      case pos =>
        simp only [hc, if_true]
        split
        case h_1 hnone => refine ⟨fun q hqv hqt => rfl, fun fc hfc => by simp⟩
        case h_2 paper hp =>
          split
          case h_1 => refine ⟨fun q hqv hqt => rfl, fun fc hfc => by simp⟩
          case h_2 revno hr =>
            simp only [hdry, Bool.false_eq_true, if_false]
            rw [show (if args.erratum = true then "e" else "v") = "e" from by simp [herr]]
            obtain ⟨hok, hframe, hvers, hpap⟩ := commitAndCopy_erratum args net w
              log ifp (compute_hash fc0.bytes)
              (output_dir_of args.anthology_dir args.anthology_id) "e" paper revno fc0
              hdry herr hf
            refine ⟨fun q hqv hqt => hframe q (hqv revno) hqt, fun fc hfc => ?_⟩
            obtain rfl : fc = fc0 := (Option.some.inj hfc).symm
            refine ⟨fun _ => ⟨revno, hvers⟩, fun _ p hp2 => ⟨revno, ?_⟩⟩
            obtain rfl : p = paper := by
              rw [hp2] at hp
              exact Option.some.inj hp
            exact hpap
      case neg =>
        simp only [hc, Bool.false_eq_true, if_false]
        split
        case h_1 hnone => refine ⟨fun q hqv hqt => rfl, fun fc hfc => by simp⟩
        case h_2 paper hp =>
          split
          case h_1 => refine ⟨fun q hqv hqt => rfl, fun fc hfc => by simp⟩
          case h_2 revno hr =>
            simp only [hdry, Bool.false_eq_true, if_false]
            rw [show (if args.erratum = true then "e" else "v") = "e" from by simp [herr]]
            obtain ⟨hok, hframe, hvers, hpap⟩ := commitAndCopy_erratum args net
              { w with dirs := output_dir_of args.anthology_dir args.anthology_id :: w.dirs }
              (log ++ ["-> Creating directory " ++
                output_dir_of args.anthology_dir args.anthology_id])
              ifp (compute_hash fc0.bytes)
              (output_dir_of args.anthology_dir args.anthology_id) "e" paper revno fc0
              hdry herr hf
            refine ⟨fun q hqv hqt => hframe q (hqv revno) hqt, fun fc hfc => ?_⟩
            obtain rfl : fc = fc0 := (Option.some.inj hfc).symm
            refine ⟨fun _ => ⟨revno, hvers⟩, fun _ p hp2 => ⟨revno, ?_⟩⟩
            obtain rfl : p = paper := by
              rw [hp2] at hp
              exact Option.some.inj hp
            exact hpap

theorem afterInput_revision_canonical (args : Args) (net : List (String × FileContent))
    (w : World) (log : List String) (ifp : String) (fc : FileContent)
    (hdry : args.dry_run = false) (herr2 : args.erratum = false)
    (hfc : fsRead w.fs ifp = some fc)
    (hnev1 : ifp ≠ pathJoin (output_dir_of args.anthology_dir args.anthology_id)
      (args.anthology_id ++ "v" ++ "1.pdf")) :
    (afterInput args net w log ifp).result = RunResult.ok →
    fsRead (afterInput args net w log ifp).world.fs
      (pathJoin (output_dir_of args.anthology_dir args.anthology_id)
        (args.anthology_id ++ ".pdf")) = some { fc with mode := 420 } := by
  unfold afterInput
  rw [hfc]
  by_cases hft : file_type_ok fc.detected
  case neg =>
    intro hok
    simp [hft] at hok
  case pos =>
    simp only [hft, Bool.not_true, Bool.false_eq_true, if_false]
    by_cases hc : w.dirs.contains (output_dir_of args.anthology_dir args.anthology_id)
    case pos =>
      simp only [hc, if_true]
      split
      case h_1 => intro hok; simp at hok
      case h_2 paper hp =>
        split
        case h_1 => intro hok; simp at hok
        case h_2 revno hr =>
          simp only [hdry, Bool.false_eq_true, if_false]
          rw [show (if args.erratum = true then "e" else "v") = "v" from by simp [herr2]]
          exact (commitAndCopy_frame args net w log ifp (compute_hash fc.bytes)
            (output_dir_of args.anthology_dir args.anthology_id) "v" paper revno fc
            hdry rfl hfc hnev1).2.2 herr2
    case neg =>
      simp only [hc, Bool.false_eq_true, if_false]
      split
      case h_1 => intro hok; simp at hok
      case h_2 paper hp =>
        split
        case h_1 => intro hok; simp at hok
        case h_2 revno hr =>
          simp only [hdry, Bool.false_eq_true, if_false]
          rw [show (if args.erratum = true then "e" else "v") = "v" from by simp [herr2]]
          exact (commitAndCopy_frame args net
            { w with dirs := output_dir_of args.anthology_dir args.anthology_id :: w.dirs }
            (log ++ ["-> Creating directory " ++
              output_dir_of args.anthology_dir args.anthology_id])
            ifp (compute_hash fc.bytes)
            (output_dir_of args.anthology_dir args.anthology_id) "v" paper revno fc
            hdry rfl hfc hnev1).2.2 herr2

/- ### C6 -/

/-- C6: in commit mode, for local and URL sources alike: an erratum run
never writes or alters the canonical un-versioned file, and every path other
than the versioned erratum files and the scratch download file is untouched;
when an erratum run completes, the versioned copy holds the resolved input
content and the paper record has gained exactly the one new erratum entry
node (with the url hash attribute updated); a revision run that completes
overwrites the canonical file with the resolved input content (provided the
input path does not alias the bootstrap v1 path). -/
theorem C6_canonical_file (args : Args) (net : List (String × FileContent)) (w : World)
    (hdry : args.dry_run = false) :
    (args.erratum = true →
      fsRead (run args net w).world.fs
        (pathJoin (output_dir_of args.anthology_dir args.anthology_id)
          (args.anthology_id ++ ".pdf")) =
      fsRead w.fs (pathJoin (output_dir_of args.anthology_dir args.anthology_id)
          (args.anthology_id ++ ".pdf"))) ∧
    (args.erratum = true → ∀ q,
      (∀ n : Nat, q ≠ pathJoin (output_dir_of args.anthology_dir args.anthology_id)
        (args.anthology_id ++ "e" ++ Nat.repr n ++ ".pdf")) →
      q ≠ tempPath →
      fsRead (run args net w).world.fs q = fsRead w.fs q) ∧
    (∀ fc, input_content args net w = some fc →
      (args.erratum = true → (run args net w).result = RunResult.ok →
        ∃ n, fsRead (run args net w).world.fs
          (pathJoin (output_dir_of args.anthology_dir args.anthology_id)
            (args.anthology_id ++ "e" ++ Nat.repr n ++ ".pdf")) =
        some { fc with mode := 420 }) ∧
      (args.erratum = true → (run args net w).result = RunResult.ok →
        ∀ p, w.paper? = some p →
        ∃ n, (run args net w).world.paper? = some
          { url := p.url.map (fun u =>
              { u with attrib := setAttr u.attrib "hash" (compute_hash fc.bytes) })
            children := p.children ++
              [new_entry args "erratum" "e" (compute_hash fc.bytes) n] }) ∧
      (args.erratum = false →
        (if startsWithHttp args.path then tempPath else args.path) ≠
          pathJoin (output_dir_of args.anthology_dir args.anthology_id)
            (args.anthology_id ++ "v" ++ "1.pdf") →
        (run args net w).result = RunResult.ok →
        fsRead (run args net w).world.fs
          (pathJoin (output_dir_of args.anthology_dir args.anthology_id)
            (args.anthology_id ++ ".pdf")) = some { fc with mode := 420 })) := by
  have hCANv : ∀ n : Nat,
      pathJoin (output_dir_of args.anthology_dir args.anthology_id)
        (args.anthology_id ++ ".pdf") ≠
      pathJoin (output_dir_of args.anthology_dir args.anthology_id)
        (args.anthology_id ++ "e" ++ Nat.repr n ++ ".pdf") :=
    fun n => Ne.symm (versioned_ne_canonical _ args.anthology_id "e" (Nat.repr n) rfl)
  have hCANt : pathJoin (output_dir_of args.anthology_dir args.anthology_id)
      (args.anthology_id ++ ".pdf") ≠ tempPath :=
    pathJoin_pdf_ne_tempPath _ args.anthology_id
  unfold run
  by_cases hsw : startsWithHttp args.path
  case neg =>
    simp only [hsw, Bool.false_eq_true, if_false]
    refine ⟨fun herr => ?_, fun herr => ?_, fun fc hfc => ?_⟩
    · obtain ⟨hA, -⟩ := afterInput_erratum args net w _ args.path hdry herr
      exact hA _ hCANv hCANt
    · obtain ⟨hA, -⟩ := afterInput_erratum args net w _ args.path hdry herr
      exact hA
    · have hfc2 : fsRead w.fs args.path = some fc := by
        simpa [input_content, hsw] using hfc
      refine ⟨fun herr hok => ?_, fun herr hok p hp => ?_, fun herr2 hnev hok => ?_⟩
      · obtain ⟨-, hB⟩ := afterInput_erratum args net w _ args.path hdry herr
        exact (hB fc hfc2).1 hok
      · obtain ⟨-, hB⟩ := afterInput_erratum args net w _ args.path hdry herr
        exact (hB fc hfc2).2 hok p hp
      · have hnev2 : args.path ≠
            pathJoin (output_dir_of args.anthology_dir args.anthology_id)
              (args.anthology_id ++ "v" ++ "1.pdf") := by
          simpa [hsw] using hnev
        exact afterInput_revision_canonical args net w _ args.path fc hdry herr2
          hfc2 hnev2 hok
  case pos =>
    simp only [hsw, if_true]
    cases hn : netGet net args.path with
    | none =>
      refine ⟨fun _ => rfl, fun _ q _ _ => rfl, fun fc hfc => ?_⟩
      rw [show input_content args net w = none from by simp [input_content, hsw, hn]] at hfc
      cases hfc
    | some c =>
      refine ⟨fun herr => ?_, fun herr => ?_, fun fc hfc => ?_⟩
      · obtain ⟨hA, -⟩ := afterInput_erratum args net
          { w with fs := fsWrite w.fs tempPath { c with mode := 420 } } _ tempPath hdry herr
        rw [hA _ hCANv hCANt]
        exact fsRead_fsWrite_ne w.fs _ tempPath _ (Ne.symm hCANt)
      · intro q hqv hqt
        obtain ⟨hA, -⟩ := afterInput_erratum args net
          { w with fs := fsWrite w.fs tempPath { c with mode := 420 } } _ tempPath hdry herr
        rw [hA q hqv hqt]
        exact fsRead_fsWrite_ne w.fs q tempPath _ (Ne.symm hqt)
      · obtain rfl : fc = { c with mode := 420 } := by
          rw [show input_content args net w = some { c with mode := 420 } from by
            simp [input_content, hsw, hn]] at hfc
          exact (Option.some.inj hfc).symm
        have hr : fsRead (fsWrite w.fs tempPath { c with mode := 420 }) tempPath =
            some { c with mode := 420 } := fsRead_fsWrite_self w.fs tempPath _
        refine ⟨fun herr hok => ?_, fun herr hok p hp => ?_, fun herr2 hnev hok => ?_⟩
        · obtain ⟨-, hB⟩ := afterInput_erratum args net
            { w with fs := fsWrite w.fs tempPath { c with mode := 420 } } _ tempPath hdry herr
          exact (hB _ hr).1 hok
        · obtain ⟨-, hB⟩ := afterInput_erratum args net
            { w with fs := fsWrite w.fs tempPath { c with mode := 420 } } _ tempPath hdry herr
          exact (hB _ hr).2 hok p hp
        · have hnev2 : tempPath ≠
              pathJoin (output_dir_of args.anthology_dir args.anthology_id)
                (args.anthology_id ++ "v" ++ "1.pdf") := by
            simpa [hsw] using hnev
          exact afterInput_revision_canonical args net
            { w with fs := fsWrite w.fs tempPath { c with mode := 420 } } _ tempPath
            { c with mode := 420 } hdry herr2 hr hnev2 hok

/-- C6 witness: the frame applied at a concrete commit-mode erratum run. -/
theorem C6_canonical_file_witness :
    (fxErrArgs.erratum = true →
      fsRead (run fxErrArgs [] fxWurl).world.fs
        (pathJoin (output_dir_of fxErrArgs.anthology_dir fxErrArgs.anthology_id)
          (fxErrArgs.anthology_id ++ ".pdf")) =
      fsRead fxWurl.fs
        (pathJoin (output_dir_of fxErrArgs.anthology_dir fxErrArgs.anthology_id)
          (fxErrArgs.anthology_id ++ ".pdf"))) ∧
    (fxErrArgs.erratum = true → ∀ q,
      (∀ n : Nat, q ≠ pathJoin (output_dir_of fxErrArgs.anthology_dir fxErrArgs.anthology_id)
        (fxErrArgs.anthology_id ++ "e" ++ Nat.repr n ++ ".pdf")) →
      q ≠ tempPath →
      fsRead (run fxErrArgs [] fxWurl).world.fs q = fsRead fxWurl.fs q) ∧
    (∀ fc, input_content fxErrArgs [] fxWurl = some fc →
      (fxErrArgs.erratum = true → (run fxErrArgs [] fxWurl).result = RunResult.ok →
        ∃ n, fsRead (run fxErrArgs [] fxWurl).world.fs
          (pathJoin (output_dir_of fxErrArgs.anthology_dir fxErrArgs.anthology_id)
            (fxErrArgs.anthology_id ++ "e" ++ Nat.repr n ++ ".pdf")) =
        some { fc with mode := 420 }) ∧
      (fxErrArgs.erratum = true → (run fxErrArgs [] fxWurl).result = RunResult.ok →
        ∀ p, fxWurl.paper? = some p →
        ∃ n, (run fxErrArgs [] fxWurl).world.paper? = some
          { url := p.url.map (fun u =>
              { u with attrib := setAttr u.attrib "hash" (compute_hash fc.bytes) })
            children := p.children ++
              [new_entry fxErrArgs "erratum" "e" (compute_hash fc.bytes) n] }) ∧
      (fxErrArgs.erratum = false →
        (if startsWithHttp fxErrArgs.path then tempPath else fxErrArgs.path) ≠
          pathJoin (output_dir_of fxErrArgs.anthology_dir fxErrArgs.anthology_id)
            (fxErrArgs.anthology_id ++ "v" ++ "1.pdf") →
        (run fxErrArgs [] fxWurl).result = RunResult.ok →
        fsRead (run fxErrArgs [] fxWurl).world.fs
          (pathJoin (output_dir_of fxErrArgs.anthology_dir fxErrArgs.anthology_id)
            (fxErrArgs.anthology_id ++ ".pdf")) = some { fc with mode := 420 })) :=
  C6_canonical_file fxErrArgs [] fxWurl rfl
